import Mathlib

/-!
Verification development for the CuaOS repository (gui_main.py,
gui_mission_control.py, src/vision.py).

The Python data and functions the claims are about are shallowly embedded:
Python numbers (int/float) are modelled as rationals, Python exceptions as
Option (a raised exception is `none`), and side-effecting loops as explicit
state passing with a recorded trace of actuation calls.
-/

namespace CuaOS

/-! ## Python value universe

Values a model-output mapping can hold in the fields read by `_extract_xy`:
numbers (int and float collapsed, bool included since Python treats bool as
int), strings, lists/tuples (collapsed, since the source only tests
`isinstance(v, (list, tuple))`), `None`, and any other object (dicts etc.),
modelled opaquely. -/
inductive PyVal where
  | num (q : ℚ)
  | str (s : String)
  | list (xs : List PyVal)
  | pynone
  | other

/-- True exactly when `isinstance(v, (int, float))` holds. -/
def pyIsNum : PyVal → Bool
  | .num _ => true
  | _ => false

/-- The rational value of a `PyVal.num`; junk elsewhere (only used under a
`pyIsNum` guard). -/
def numVal : PyVal → ℚ
  | .num q => q
  | _ => 0

/-! ## Model of Python builtin float() on strings -/

def isSpaceChar (c : Char) : Bool :=
  c == ' ' || c == '\t' || c == '\n' || c == '\r'

def stripSpaces (cs : List Char) : List Char :=
  ((cs.dropWhile isSpaceChar).reverse.dropWhile isSpaceChar).reverse

def digitVal (c : Char) : Option ℕ :=
  if c.isDigit then some (c.toNat - 48) else none

/-- Accumulate a digit string into a natural number; `none` if a non-digit
appears. The empty list yields `some 0` (callers rule emptiness out). -/
def digitsVal : List Char → Option ℕ :=
  fun cs =>
    cs.foldl
      (fun acc c =>
        match acc, digitVal c with
        | some a, some d => some (10 * a + d)
        | _, _ => none)
      (some 0)

/-- Split a character list at the first decimal point, if any. -/
def splitDot (cs : List Char) : List Char × Option (List Char) :=
  let ip := cs.takeWhile (fun c => !(c == '.'))
  match cs.dropWhile (fun c => !(c == '.')) with
  | [] => (ip, none)
  | _ :: fp => (ip, some fp)

/-- Models Python `float()` applied to a string: strips surrounding
whitespace, then accepts an optional sign and decimal digits with at most one
decimal point. Exponent, `inf` and `nan` forms are not modelled and yield
`none` (a raise); no claim in this development touches them. -/
def pyFloatOfString (s : String) : Option ℚ :=
  let cs := stripSpaces s.toList
  let sign : Bool :=
    match cs with
    | '-' :: _ => true
    | _ => false
  let body : List Char :=
    match cs with
    | '-' :: r => r
    | '+' :: r => r
    | r => r
  let (ip, fpOpt) := splitDot body
  if !(ip.all Char.isDigit) then none
  else
    match fpOpt with
    | none =>
        if ip.isEmpty then none
        else
          match digitsVal ip with
          | some n => some (if sign then -(n : ℚ) else (n : ℚ))
          | none => none
    | some fp =>
        if !(fp.all Char.isDigit) then none
        else if ip.isEmpty && fp.isEmpty then none
        else
          match digitsVal ip, digitsVal fp with
          | some n, some f =>
              let q : ℚ := (n : ℚ) + (f : ℚ) / ((10 : ℚ) ^ fp.length)
              some (if sign then -q else q)
          | _, _ => none

/-- Models Python `float(v)` on an arbitrary value: numbers convert exactly,
strings are parsed, everything else (None, lists, tuples, other objects)
raises TypeError, modelled as `none`. -/
def pyFloat : PyVal → Option ℚ
  | .num q => some q
  | .str s => pyFloatOfString s
  | _ => none

/-! ## The model-output mapping

`_extract_xy` and the agent loop read only the keys `action`, `x`, `y`,
`position` and (for the repeat guard) `text`; the mapping is embedded as a
structure of those optional fields (`none` = key absent). -/
structure ModelOut where
  action : Option String
  xf : Option PyVal
  yf : Option PyVal
  positionf : Option PyVal
  textf : Option String

/-! ## The two copies of `_extract_xy`

Both files first try the `position` field with three shapes, in source
order: `[x, y]` (both numeric), `[x1, y1, x2, y2]` (all numeric, resolved to
the bbox center via `_center_from_bbox`), and `[[x1, y1], [x2, y2]]` (two
two-element sequences, leaves converted by `float` without a numeric check,
resolved to the center of the two points). An unmatched shape falls through.
-/

/-- Handler for the `position` field (identical source in both files).
Outer `none` = no shape matched, fall through to the `x`/`y` checks;
`some none` = a shape matched but a `float` conversion raised;
`some (some p)` = a shape matched and returned `p`. -/
def posShapes : PyVal → Option (Option (ℚ × ℚ))
  | .list [.num a, .num b] => some (some (a, b))
  | .list [.list [a1, a2], .list [b1, b2]] =>
      match pyFloat a1, pyFloat a2, pyFloat b1, pyFloat b2 with
      | some x1, some y1, some x2, some y2 =>
          some (some ((x1 + x2) / 2, (y1 + y2) / 2))
      | _, _, _, _ => some none
  | .list [.num a, .num b, .num c, .num d] =>
      some (some ((a + c) / 2, (b + d) / 2))
  | _ => none

/-- gui_main.py handler for the `x` (and then `y`) value: a two- or
four-element sequence is accepted only when every element is numeric
(`all(isinstance(t, (int, float)) ...)`); anything else falls through
(`none`). This handler can never raise. -/
def xyShapeMain : PyVal → Option (ℚ × ℚ)
  | .list [.num a, .num b] => some (a, b)
  | .list [.num a, .num b, .num c, .num d] => some ((a + c) / 2, (b + d) / 2)
  | _ => none

/-- gui_mission_control.py handler for the `x` (and then `y`) value: a two-
or four-element sequence is accepted by length alone and its elements are
converted by `float`, which can raise (`some none`); other shapes fall
through (`none`). -/
def xyShapeMC : PyVal → Option (Option (ℚ × ℚ))
  | .list [a, b] =>
      some
        (match pyFloat a, pyFloat b with
         | some qa, some qb => some (qa, qb)
         | _, _ => none)
  | .list [a, b, c, d] =>
      some
        (match pyFloat a, pyFloat b, pyFloat c, pyFloat d with
         | some x1, some y1, some x2, some y2 =>
             some ((x1 + x2) / 2, (y1 + y2) / 2)
         | _, _, _, _ => none)
  | _ => none

/-- `_extract_xy` of gui_main.py. `none` models a raised exception. -/
def extract_xy_main (out : ModelOut) : Option (ℚ × ℚ) :=
  let x := (out.xf).getD (PyVal.num (1 / 2))
  let y := (out.yf).getD (PyVal.num (1 / 2))
  match posShapes ((out.positionf).getD PyVal.pynone) with
  | some r => r
  | none =>
      match xyShapeMain x with
      | some p => some p
      | none =>
          match xyShapeMain y with
          | some p => some p
          | none =>
              match pyFloat x, pyFloat y with
              | some qx, some qy => some (qx, qy)
              | _, _ => none

/-- `_extract_xy` of gui_mission_control.py. `none` models a raised
exception. -/
def extract_xy_mc (out : ModelOut) : Option (ℚ × ℚ) :=
  let x := (out.xf).getD (PyVal.num (1 / 2))
  let y := (out.yf).getD (PyVal.num (1 / 2))
  match posShapes ((out.positionf).getD PyVal.pynone) with
  | some r => r
  | none =>
      match xyShapeMC x with
      | some r => r
      | none =>
          match xyShapeMC y with
          | some r => r
          | none =>
              match pyFloat x, pyFloat y with
              | some qx, some qy => some (qx, qy)
              | _, _ => none

/-! ## History window

`trim_history` (both files are one-liners of the same logic): return the
history unchanged when its length is at most `keep_last`, otherwise the
Python slice `history[-keep_last:]`. Note that for `keep_last = 0` the slice
`history[-0:]` is `history[0:]`, the whole list, which the model reproduces
with the dedicated zero branch. -/
def trim_history {α : Type} (history : List α) (keep_last : ℕ) : List α :=
  if history.length ≤ keep_last then history
  else if keep_last = 0 then history
  else history.drop (history.length - keep_last)

/-! ## Coordinate validator and repeat guard (spec-modelled)

These two functions live in `src/guards.py`, which is not present under
`src/`; only their call sites are. They are modelled from the spec. -/

/-- Modelled from the spec: `validate_xy` from `src/guards.py` (absent from
the sources). §4.2: "Rejects NaN/non-numeric values, rejects coordinates
outside [0,1]×[0,1] (with the documented reason), otherwise accepts." Over ℚ
there is no NaN and arguments are numeric by type, so the model is the range
check, returning the `(ok, reason)` pair of the contract. -/
def validate_xy (x y : ℚ) : Bool × String :=
  if 0 ≤ x ∧ x ≤ 1 ∧ 0 ≤ y ∧ y ≤ 1 then (true, "ok")
  else (false, "out of range")

/-- Python `str.upper()` restricted to the ASCII range (the action kinds in
play are ASCII). -/
def pyUpper (s : String) : String :=
  String.mk (s.data.map Char.toUpper)

/-- The action kind the loop computes as `(out.get("action") or "NOOP").upper()`:
a missing or empty (falsy) `action` value becomes "NOOP", then uppercased. -/
def actionKind (o : ModelOut) : String :=
  pyUpper
    (match o.action with
     | none => "NOOP"
     | some s => if s == "" then "NOOP" else s)

def isPointerKind (k : String) : Bool :=
  k == "CLICK" || k == "DOUBLE_CLICK" || k == "RIGHT_CLICK"

/-- A history entry: either an executed action (the accepted mapping) or the
tagged `{"action": "INVALID_COORDS", "raw": out}` entry appended when
coordinate validation fails. -/
inductive HistEntry where
  | acted (o : ModelOut)
  | invalidCoords (raw : ModelOut)

/-- Modelled from the spec: the action-similarity test used by
`should_stop_on_repeat` in `src/guards.py` (absent from the sources). §4.3:
same action kind, and for pointer actions coordinates within a tolerance of
1% of the normalized span, for text actions exact text. -/
def sameAction (a cand : ModelOut) : Bool :=
  actionKind a == actionKind cand &&
  (if isPointerKind (actionKind cand) then
     match a.xf, a.yf, cand.xf, cand.yf with
     | some (.num ax), some (.num ay), some (.num cx), some (.num cy) =>
         decide (|ax - cx| ≤ 1 / 100 ∧ |ay - cy| ≤ 1 / 100)
     | _, _, _, _ => false
   else if actionKind cand == "TYPE" then a.textf == cand.textf
   else true)

/-- Modelled from the spec: `should_stop_on_repeat` from `src/guards.py`
(absent from the sources). §4.3 and §8: the guard triggers on or before the
third occurrence of a near-identical action, i.e. when the candidate and the
two most recent executed history entries are all the same action. -/
def should_stop_on_repeat (history : List HistEntry) (cand : ModelOut) :
    Bool × String :=
  (match history.reverse with
   | .acted a :: .acted b :: _ => sameAction a cand && sameAction b cand
   | _ => false,
   "repeat-guard")

/-! ## The objective execution loop

`run_single_command` of gui_main.py (gui_mission_control.py is the same loop
with extra logging/metric side effects and `extract_xy_mc`). The collaborators
are embedded as follows: `ask_next_action` is a deterministic fake consuming a
scripted list of model outputs one call at a time (an exhausted script models
a model-invocation failure and propagates, as §4.5 requires); `capture_screen`
and `draw_preview` are pure side effects outside the state; `execute_action`
appends the executed mapping to a recorded trace. A raised exception inside
`_extract_xy` propagates as a run-level outcome. -/

inductive AttemptResult where
  | doneBitti
  | accepted (o : ModelOut)
  | exhausted
  | raised
  | modelGone

/-- Discriminates `AttemptResult` constructors without comparing the carried
mapping (used only to state concrete evaluations). -/
def AttemptResult.tag : AttemptResult → ℕ
  | .doneBitti => 0
  | .accepted _ => 1
  | .exhausted => 2
  | .raised => 3
  | .modelGone => 4

/-- The inner `for attempt in range(MODEL_RETRY + 1)` loop of
`run_single_command`, with `attempts` the number of remaining iterations.
Returns the loop outcome together with the remaining script and the history
(mutated by `INVALID_COORDS` appends). `exhausted` is the fall-out of the
`for` with `out = None`; `raised` models `_extract_xy` raising; `modelGone`
models `ask_next_action` itself failing (scripted outputs exhausted). -/
def attemptLoop : ℕ → List ModelOut → List HistEntry →
    AttemptResult × List ModelOut × List HistEntry
  | 0, script, history => (.exhausted, script, history)
  | n + 1, script, history =>
      match script with
      | [] => (.modelGone, [], history)
      | o :: rest =>
          let kind := actionKind o
          if kind == "BITTI" then (.doneBitti, rest, history)
          else if isPointerKind kind then
            match extract_xy_main o with
            | none => (.raised, rest, history)
            | some (x, y) =>
                if (validate_xy x y).1 then
                  (.accepted
                     { o with xf := some (.num x), yf := some (.num y) },
                   rest, history)
                else attemptLoop n rest (history ++ [.invalidCoords o])
          else (.accepted o, rest, history)

/-- Terminal outcomes of `run_single_command`, named after the strings the
source returns. In the spec's RunResult vocabulary: `doneBitti` is COMPLETED
(the terminal "done" kind is the Turkish "BITTI"), `stopped` is STOPPED,
`errorNoValidAction` is ERROR, `doneMaxSteps` is MAX_STEPS,
`doneRepeatGuard` is the repeat-guard termination; `raised` and `modelGone`
are run-level failures propagating to the caller (§4.5 failure semantics);
`fuelOut` is unreachable for sufficient fuel. -/
inductive RunResult where
  | stopped
  | doneBitti
  | errorNoValidAction
  | doneRepeatGuard
  | doneMaxSteps
  | raised
  | modelGone
  | fuelOut
  deriving DecidableEq

structure LoopCfg where
  modelRetry : ℕ
  maxSteps : ℕ

/-- The `while True` loop of `run_single_command`: per iteration it checks
the stop flag, queries the model through the bounded retry loop, runs the
repeat guard on the accepted action, executes it (recorded in `trace`),
appends it to history, and increments the step counter, terminating past
`MAX_STEPS`. `fuel` only bounds the recursion; one outer iteration always
consumes at least one scripted output. -/
def runLoop (cfg : LoopCfg) (stop : Bool) :
    ℕ → ℕ → List ModelOut → List HistEntry → List ModelOut →
    RunResult × List ModelOut
  | 0, _, _, _, trace => (.fuelOut, trace)
  | fuel + 1, step, script, history, trace =>
      if stop then (.stopped, trace)
      else
        match attemptLoop (cfg.modelRetry + 1) script history with
        | (.doneBitti, _, _) => (.doneBitti, trace)
        | (.exhausted, _, _) => (.errorNoValidAction, trace)
        | (.raised, _, _) => (.raised, trace)
        | (.modelGone, _, _) => (.modelGone, trace)
        | (.accepted o, rest, history') =>
            if (should_stop_on_repeat history' o).1 then
              (.doneRepeatGuard, trace)
            else
              let trace' := trace ++ [o]
              let history'' := history' ++ [.acted o]
              if cfg.maxSteps < step + 1 then (.doneMaxSteps, trace')
              else runLoop cfg stop fuel (step + 1) rest history'' trace'

/-- `run_single_command`: step counter starts at 1, history and trace empty;
the stop flag is never set during the runs the claims describe. -/
def run_single_command (cfg : LoopCfg) (script : List ModelOut) :
    RunResult × List ModelOut :=
  runLoop cfg false (script.length + 1) 1 script [] []

/-! ## Viewport mapper: `VMView._pos_to_norm`

Identical in both files. The view state it reads: whether a frame pixmap is
set (`self._pm`, `None` is falsy) and the draw rectangle computed by
`paintEvent` (`self._draw_rect`, a 4-tuple or `None`). Display coordinates
are integers (`int(e.position().x())`). -/
def pos_to_norm : Bool → Option (ℤ × ℤ × ℤ × ℤ) → ℤ → ℤ → Option (ℚ × ℚ)
  | false, _, _, _ => none
  | true, none, _, _ => none
  | true, some (dx, dy, dw, dh), x, y =>
      if dw ≤ 0 ∨ dh ≤ 0 then none
      else if x < dx ∨ y < dy ∨ dx + dw ≤ x ∨ dy + dh ≤ y then none
      else some (((x - dx : ℤ) : ℚ) / ((dw : ℤ) : ℚ),
                 ((y - dy : ℤ) : ℚ) / ((dh : ℤ) : ℚ))

/-! ## Input event translator: the VMView mouse handlers

The handler state is the `VMView` fields the handlers read and write; the
actuation calls issued to the sandbox are recorded as a trace. The wall
clock read by `time.monotonic()` in `mouseMoveEvent` is supplied as the
move event's timestamp. -/

inductive QtButton where
  | left
  | right
  | middle
  | extra

/-- The button canonicalization of `mousePressEvent`: left → 1, right → 3,
middle → 2, anything else is ignored. -/
def btnCode : QtButton → Option ℕ
  | .left => some 1
  | .right => some 3
  | .middle => some 2
  | .extra => none

/-- Sandbox actuation calls issued by the handlers. -/
inductive SbCall where
  | moveNorm (x y : ℚ)
  | mouseDown (btn : ℕ)
  | dragNorm (x y : ℚ) (btn : ℕ)
  | mouseUp (btn : ℕ)

structure ViewState where
  inputEnabled : Bool
  hasFrame : Bool
  rect : Option (ℤ × ℤ × ℤ × ℤ)
  pressedBtn : Option ℕ
  lastMoveTs : ℚ

/-- `VMView.mousePressEvent`. -/
def onPress (s : ViewState) (x y : ℤ) (b : QtButton) :
    ViewState × List SbCall :=
  if s.inputEnabled then
    match pos_to_norm s.hasFrame s.rect x y with
    | none => (s, [])
    | some (nx, ny) =>
        match btnCode b with
        | none => (s, [])
        | some btn =>
            ({ s with pressedBtn := some btn },
             [.moveNorm nx ny, .mouseDown btn])
  else (s, [])

/-- `VMView.mouseMoveEvent`; `now` is the `time.monotonic()` reading. -/
def onMove (s : ViewState) (x y : ℤ) (now : ℚ) :
    ViewState × List SbCall :=
  if s.inputEnabled then
    match pos_to_norm s.hasFrame s.rect x y with
    | none => (s, [])
    | some (nx, ny) =>
        if now - s.lastMoveTs < 3 / 100 then (s, [])
        else
          match s.pressedBtn with
          | some b => ({ s with lastMoveTs := now }, [.dragNorm nx ny b])
          | none => ({ s with lastMoveTs := now }, [.moveNorm nx ny])
  else (s, [])

/-- `VMView.mouseReleaseEvent`. -/
def onRelease (s : ViewState) : ViewState × List SbCall :=
  if s.inputEnabled then
    match s.pressedBtn with
    | none => (s, [])
    | some b => ({ s with pressedBtn := none }, [.mouseUp b])
  else (s, [])

inductive MouseEv where
  | press (x y : ℤ) (b : QtButton)
  | move (x y : ℤ) (now : ℚ)
  | release

def viewStep (s : ViewState) : MouseEv → ViewState × List SbCall
  | .press x y b => onPress s x y b
  | .move x y now => onMove s x y now
  | .release => onRelease s

/-- Process a sequence of mouse events, accumulating the actuation calls. -/
def runEvents (s : ViewState) : List MouseEv → ViewState × List SbCall
  | [] => (s, [])
  | e :: es =>
      ((runEvents (viewStep s e).1 es).1,
       (viewStep s e).2 ++ (runEvents (viewStep s e).1 es).2)

/-- The move events corresponding to a list of (x, y, timestamp) samples. -/
def movesToEvs (moves : List (ℤ × ℤ × ℚ)) : List MouseEv :=
  moves.map (fun m => MouseEv.move m.1 m.2.1 m.2.2)

/-! ## `resize_keep_aspect` (src/vision.py)

Image dimensions are naturals. Python computes `int(h * max_dim / w)` with
float division then truncation; for nonnegative operands of image-size
magnitude this is exactly floor division, i.e. ℕ division. -/
def resize_keep_aspect (w h : ℕ) (max_dim : ℕ) : ℕ × ℕ :=
  if w ≤ max_dim ∧ h ≤ max_dim then (w, h)
  else if h ≤ w then (max_dim, h * max_dim / w)
  else (w * max_dim / h, max_dim)

/-! ## Predicates and concrete inputs used by the claim statements -/

/-- Both coordinates of a normalized point lie in [0, 1]. -/
def inUnit (p : ℚ × ℚ) : Prop :=
  0 ≤ p.1 ∧ p.1 ≤ 1 ∧ 0 ≤ p.2 ∧ p.2 ≤ 1

def optInUnit : Option (ℚ × ℚ) → Prop
  | none => True
  | some p => inUnit p

/-- The normalized coordinates an actuation call carries, if any, lie in the
unit square. -/
def callInUnit : SbCall → Prop
  | .moveNorm x y => inUnit (x, y)
  | .dragNorm x y _ => inUnit (x, y)
  | _ => True

/-- A pointer-kind action carries validated in-range numeric coordinates. -/
def pointerCoordsValid (o : ModelOut) : Prop :=
  isPointerKind (actionKind o) = true →
    ∃ x y, o.xf = some (.num x) ∧ o.yf = some (.num y) ∧ inUnit (x, y)

/-- An absent field or a numeric scalar (the shapes on which the trailing
`float(x), float(y)` fallback of `_extract_xy` cannot raise). -/
def scalarNumOpt : Option PyVal → Bool
  | none => true
  | some (.num _) => true
  | some _ => false

/-- A `position` value that cannot make the nested-pair branch raise: if it
is a two-element list of two-element lists, its four leaves are numeric. -/
def nestedPosSafe : PyVal → Bool
  | .list [.list [a1, a2], .list [b1, b2]] =>
      pyIsNum a1 && pyIsNum a2 && pyIsNum b1 && pyIsNum b2
  | _ => true

/-- An `x`/`y` value whose two- or four-element list forms, if any, hold
only numeric elements (the shapes on which the two `_extract_xy` copies
behave identically). -/
def xyListNumeric : PyVal → Bool
  | .list [a, b] => pyIsNum a && pyIsNum b
  | .list [a, b, c, d] => pyIsNum a && pyIsNum b && pyIsNum c && pyIsNum d
  | _ => true

/-- A CLICK whose coordinates (2, 2) fail validation. -/
def clickBad : ModelOut :=
  ⟨some "CLICK", some (.num 2), some (.num 2), none, none⟩

/-- A TYPE action with the given text. -/
def typeOut (t : String) : ModelOut :=
  ⟨some "TYPE", none, none, none, some t⟩

/-- The terminal done action ("BITTI"). -/
def bittiOut : ModelOut :=
  ⟨some "BITTI", none, none, none, none⟩

/-- The mapping with every field absent. -/
def emptyOut : ModelOut :=
  ⟨none, none, none, none, none⟩

/-- A mapping whose `x` field holds a three-element list: the trailing
`float(x)` fallback receives a list and raises TypeError. -/
def tripleListOut : ModelOut :=
  ⟨none, some (.list [.num 1, .num 2, .num 3]), none, none, none⟩

/-- A mapping whose `x` field holds a two-element list of numeric strings:
`float("0.1")` succeeds, so the copies of `_extract_xy` diverge on it. -/
def strPairOut : ModelOut :=
  ⟨none, some (.list [.str "0.1", .str "0.2"]), none, none, none⟩

/-- A concrete idle view state: input enabled, frame set, draw rectangle
(0, 0, 2, 2), no button held, debounce clock at 0. -/
def vs0 : ViewState :=
  ⟨true, true, some (0, 0, 2, 2), none, 0⟩

/-! # Theorems -/

/-- C4: for each well-formed encoding `_extract_xy` (gui_main.py) returns
the mathematically correct point, and a well-formed `position` field takes
precedence over arbitrary `x`/`y` fields: `position=[a,b]` yields `(a,b)`;
`position=[a,b,c,d]` yields the bbox center; `position=[[a,b],[c,d]]` yields
the center of the two points; scalar `x`,`y` fields yield `(x,y)`; and an
`x` or `y` field holding a two- or four-element numeric list is resolved by
the same two list rules. -/
theorem extract_xy_wellformed_shapes (a b c d : ℚ) (av tv : Option String)
    (xv yv : Option PyVal) :
    extract_xy_main ⟨av, xv, yv, some (.list [.num a, .num b]), tv⟩
        = some (a, b) ∧
    extract_xy_main ⟨av, xv, yv,
        some (.list [.num a, .num b, .num c, .num d]), tv⟩
        = some ((a + c) / 2, (b + d) / 2) ∧
    extract_xy_main ⟨av, xv, yv,
        some (.list [.list [.num a, .num b], .list [.num c, .num d]]), tv⟩
        = some ((a + c) / 2, (b + d) / 2) ∧
    extract_xy_main ⟨av, some (.num a), some (.num b), none, tv⟩
        = some (a, b) ∧
    extract_xy_main ⟨av, some (.list [.num a, .num b]), yv, none, tv⟩
        = some (a, b) ∧
    extract_xy_main ⟨av, some (.list [.num a, .num b, .num c, .num d]),
        yv, none, tv⟩
        = some ((a + c) / 2, (b + d) / 2) ∧
    extract_xy_main ⟨av, none, some (.list [.num a, .num b]), none, tv⟩
        = some (a, b) ∧
    extract_xy_main ⟨av, none,
        some (.list [.num a, .num b, .num c, .num d]), none, tv⟩
        = some ((a + c) / 2, (b + d) / 2) :=
  ⟨rfl, rfl, rfl, rfl, rfl, rfl, rfl, rfl⟩

/-- C8 counterexample: for window 0 the trim is not the trailing
`min(len h, k)` entries — Python `history[-0:]` is the whole list, so
`trim_history [e] 0` has length 1, not `min 1 0 = 0`. -/
theorem trim_history_zero_window_counterexample :
    (trim_history [(0 : ℕ)] 0).length ≠ min ([(0 : ℕ)].length) 0 := by
  decide

/-- C8 amended: for every history `h`, `trim_history h k` returns `h`
unchanged when `len h ≤ k`; for every window `k ≥ 1` it returns the trailing
`min (len h) k` entries (`h.drop (len h - k)`, oldest-to-newest order
preserved); and trimming is idempotent for every window. (For `k = 0` the
source returns `h` unchanged, the Python `[-0:]` slice.) -/
theorem trim_history_spec {α : Type} (h : List α) (k : ℕ) :
    (h.length ≤ k → trim_history h k = h) ∧
    (1 ≤ k → trim_history h k = h.drop (h.length - k)) ∧
    (1 ≤ k → (trim_history h k).length = min h.length k) ∧
    trim_history (trim_history h k) k = trim_history h k := by
  refine ⟨fun hle => ?_, fun hk => ?_, fun hk => ?_, ?_⟩
  · simp [trim_history, hle]
  · unfold trim_history
    split_ifs with h1 h2
    · simp [Nat.sub_eq_zero_of_le h1]
    · omega
    · rfl
  · unfold trim_history
    split_ifs with h1 h2
    · simp; omega
    · omega
    · simp; omega
  · by_cases h1 : h.length ≤ k
    · simp [trim_history, h1]
    · by_cases h2 : k = 0
      · simp [trim_history, h1, h2]
      · have hlen : (List.drop (h.length - k) h).length ≤ k := by
          simp; omega
        simp [trim_history, h1, h2, hlen]
        intro hcon
        exact absurd hcon (by omega)

/-- C8 witness for the amended statement: the trailing-window, length and
idempotence conclusions evaluated at a three-entry history with windows 5
and 2. -/
theorem trim_history_spec_witness :
    trim_history [(0 : ℕ), 1, 2] 5 = [0, 1, 2] ∧
    trim_history [(0 : ℕ), 1, 2] 2
      = List.drop ([(0 : ℕ), 1, 2].length - 2) [(0 : ℕ), 1, 2] ∧
    (trim_history [(0 : ℕ), 1, 2] 2).length = min [(0 : ℕ), 1, 2].length 2 ∧
    trim_history (trim_history [(0 : ℕ), 1, 2] 2) 2
      = trim_history [(0 : ℕ), 1, 2] 2 :=
  ⟨(trim_history_spec [(0 : ℕ), 1, 2] 5).1 (by decide),
   (trim_history_spec [(0 : ℕ), 1, 2] 2).2.1 (by decide),
   (trim_history_spec [(0 : ℕ), 1, 2] 2).2.2.1 (by decide),
   (trim_history_spec [(0 : ℕ), 1, 2] 2).2.2.2⟩

/-- C10 counterexample: with input dimensions 1000×1 (both at least 1) and
max_dim 10, `resize_keep_aspect` returns height 0, not a raster with both
dimensions at least 1. -/
theorem resize_keep_aspect_counterexample :
    1 ≤ 1000 ∧ 1 ≤ 1 ∧ 1 ≤ 10 ∧ (resize_keep_aspect 1000 1 10).2 = 0 := by
  decide

/-- C10 amended: for dimensions and max_dim at least 1, `resize_keep_aspect`
returns dimensions at most max_dim, returns the image unchanged when both
input dimensions are already at most max_dim, and returns dimensions at
least 1 provided the aspect ratio is bounded by max_dim (`w ≤ h * max_dim`
and `h ≤ w * max_dim`); without that proviso a dimension can collapse to 0. -/
theorem resize_keep_aspect_spec (w h m : ℕ)
    (hw : 1 ≤ w) (hh : 1 ≤ h) (hm : 1 ≤ m) :
    ((resize_keep_aspect w h m).1 ≤ m ∧ (resize_keep_aspect w h m).2 ≤ m) ∧
    (w ≤ m → h ≤ m → resize_keep_aspect w h m = (w, h)) ∧
    (w ≤ h * m → h ≤ w * m →
      1 ≤ (resize_keep_aspect w h m).1 ∧ 1 ≤ (resize_keep_aspect w h m).2) := by
  unfold resize_keep_aspect
  split_ifs with h1 h2
  · exact ⟨⟨h1.1, h1.2⟩, fun _ _ => rfl, fun _ _ => ⟨hw, hh⟩⟩
  · refine ⟨⟨le_refl m, ?_⟩, fun hw' hh' => absurd ⟨hw', hh'⟩ h1, fun ha _ => ⟨hm, ?_⟩⟩
    · calc h * m / w ≤ w * m / w :=
            Nat.div_le_div_right (Nat.mul_le_mul_right m h2)
        _ = m := Nat.mul_div_cancel_left m (by omega)
    · exact (Nat.one_le_div_iff (by omega)).mpr ha
  · refine ⟨⟨?_, le_refl m⟩, fun hw' hh' => absurd ⟨hw', hh'⟩ h1, fun _ hb => ⟨?_, hm⟩⟩
    · calc w * m / h ≤ h * m / h :=
            Nat.div_le_div_right (Nat.mul_le_mul_right m (by omega))
        _ = m := Nat.mul_div_cancel_left m (by omega)
    · exact (Nat.one_le_div_iff (by omega)).mpr hb

/-- C10 witness for the amended statement: a 200×100 image with max_dim 100
satisfies every hypothesis, and the conclusions hold there. -/
theorem resize_keep_aspect_spec_witness :
    ((resize_keep_aspect 200 100 100).1 ≤ 100 ∧
      (resize_keep_aspect 200 100 100).2 ≤ 100) ∧
    (200 ≤ 100 → 100 ≤ 100 → resize_keep_aspect 200 100 100 = (200, 100)) ∧
    (200 ≤ 100 * 100 → 100 ≤ 200 * 100 →
      1 ≤ (resize_keep_aspect 200 100 100).1 ∧
      1 ≤ (resize_keep_aspect 200 100 100).2) :=
  resize_keep_aspect_spec 200 100 100 (by decide) (by decide) (by decide)

/-- C2: with retry budget 2, three consecutive CLICK actions with invalid
coordinates terminate the run with the ERROR result
(`"ERROR(no valid action)"`); a run whose first response is the terminal
done kind ("BITTI") terminates with the COMPLETED result (`"DONE(BITTI)"`)
at step 1 with nothing executed; and a run performing more steps than the
configured maximum without a terminal action terminates with the MAX_STEPS
result (`"DONE(max-steps)"`). -/
theorem loop_terminal_outcomes :
    (run_single_command ⟨2, 30⟩ [clickBad, clickBad, clickBad]).1
        = RunResult.errorNoValidAction ∧
    run_single_command ⟨2, 30⟩ [bittiOut] = (RunResult.doneBitti, []) ∧
    (run_single_command ⟨2, 2⟩ [typeOut "a", typeOut "b", typeOut "c"]).1
        = RunResult.doneMaxSteps ∧
    (run_single_command ⟨2, 2⟩ [typeOut "a", typeOut "b", typeOut "c"]).2.length
        = 2 :=
  ⟨by decide, rfl, by decide, by decide⟩

/-! ## Helper lemmas shared by the extraction claims -/

theorem pyIsNum_eq (v : PyVal) (hv : pyIsNum v = true) : ∃ q, v = .num q := by
  cases v <;> simp_all [pyIsNum]

theorem pyFloat_of_num (v : PyVal) (hv : pyIsNum v = true) :
    pyFloat v = some (numVal v) := by
  obtain ⟨q, rfl⟩ := pyIsNum_eq v hv
  rfl

theorem scalar_resolved (v : Option PyVal) (hv : scalarNumOpt v = true) :
    ∃ q, v.getD (PyVal.num (1 / 2)) = .num q := by
  cases v with
  | none => exact ⟨1 / 2, rfl⟩
  | some w => cases w <;> simp_all [scalarNumOpt]

theorem posShapes_no_raise (p : PyVal) (hp : nestedPosSafe p = true) :
    posShapes p ≠ some none := by
  unfold posShapes
  split
  · simp
  · simp only [nestedPosSafe, Bool.and_eq_true] at hp
    obtain ⟨⟨⟨h1, h2⟩, h3⟩, h4⟩ := hp
    rw [pyFloat_of_num _ h1, pyFloat_of_num _ h2, pyFloat_of_num _ h3,
      pyFloat_of_num _ h4]
    simp
  · simp
  · simp

theorem xyShape_agree (v : PyVal) (hv : xyListNumeric v = true) :
    xyShapeMC v = (xyShapeMain v).map some := by
  cases v with
  | num q => rfl
  | str s => rfl
  | pynone => rfl
  | other => rfl
  | list xs =>
    rcases xs with _ | ⟨a, _ | ⟨b, _ | ⟨c, _ | ⟨d, _ | ⟨e, rest⟩⟩⟩⟩⟩
    · rfl
    · cases a <;> rfl
    · simp only [xyListNumeric, Bool.and_eq_true] at hv
      obtain ⟨qa, rfl⟩ := pyIsNum_eq a hv.1
      obtain ⟨qb, rfl⟩ := pyIsNum_eq b hv.2
      rfl
    · cases a <;> cases b <;> cases c <;> rfl
    · simp only [xyListNumeric, Bool.and_eq_true] at hv
      obtain ⟨⟨⟨h1, h2⟩, h3⟩, h4⟩ := hv
      obtain ⟨qa, rfl⟩ := pyIsNum_eq a h1
      obtain ⟨qb, rfl⟩ := pyIsNum_eq b h2
      obtain ⟨qc, rfl⟩ := pyIsNum_eq c h3
      obtain ⟨qd, rfl⟩ := pyIsNum_eq d h4
      rfl
    · cases a <;> cases b <;> cases c <;> cases d <;> rfl

/-- C1 counterexample: the coordinate extractor is not total — on the
mapping `{"x": [1, 2, 3]}` the trailing `float(x)` fallback receives a
three-element list and raises TypeError in both copies, instead of degrading
to the (0.5, 0.5) default. -/
theorem extract_xy_raises_counterexample :
    extract_xy_main tripleListOut = none ∧ extract_xy_mc tripleListOut = none :=
  ⟨by decide, by decide⟩

/-- C1 amended: `_extract_xy` (both copies) never raises provided the `x`
and `y` fields are absent or numeric scalars and the `position` field, when
it is a two-element list of two-element lists, has numeric leaves — the two
places a `float` conversion can receive a non-convertible value; and when
the `x`, `y` and `position` keys are all absent it returns exactly
(0.5, 0.5). -/
theorem extract_xy_total_amended (out : ModelOut)
    (hx : scalarNumOpt out.xf = true) (hy : scalarNumOpt out.yf = true)
    (hp : nestedPosSafe ((out.positionf).getD PyVal.pynone) = true) :
    (extract_xy_main out).isSome = true ∧
    (extract_xy_mc out).isSome = true ∧
    (out.xf = none → out.yf = none → out.positionf = none →
      extract_xy_main out = some (1 / 2, 1 / 2) ∧
      extract_xy_mc out = some (1 / 2, 1 / 2)) := by
  obtain ⟨qx, hqx⟩ := scalar_resolved out.xf hx
  obtain ⟨qy, hqy⟩ := scalar_resolved out.yf hy
  refine ⟨?_, ?_, fun hxe hye hpe => ?_⟩
  · simp only [extract_xy_main, hqx, hqy]
    cases hps : posShapes ((out.positionf).getD PyVal.pynone) with
    | some r =>
        cases r with
        | some v => simp
        | none => exact absurd hps (posShapes_no_raise _ hp)
    | none => simp [xyShapeMain, pyFloat]
  · simp only [extract_xy_mc, hqx, hqy]
    cases hps : posShapes ((out.positionf).getD PyVal.pynone) with
    | some r =>
        cases r with
        | some v => simp
        | none => exact absurd hps (posShapes_no_raise _ hp)
    | none => simp [xyShapeMC, pyFloat]
  · constructor <;>
      simp [extract_xy_main, extract_xy_mc, hxe, hye, hpe, posShapes,
        xyShapeMain, xyShapeMC, pyFloat]

/-- C1 witness for the amended statement, at the all-absent mapping. -/
theorem extract_xy_total_amended_witness :
    (extract_xy_main emptyOut).isSome = true ∧
    (extract_xy_mc emptyOut).isSome = true ∧
    extract_xy_main emptyOut = some (1 / 2, 1 / 2) ∧
    extract_xy_mc emptyOut = some (1 / 2, 1 / 2) :=
  ⟨(extract_xy_total_amended emptyOut (by decide) (by decide) (by decide)).1,
   (extract_xy_total_amended emptyOut (by decide) (by decide) (by decide)).2.1,
   (extract_xy_total_amended emptyOut (by decide) (by decide) (by decide)).2.2
     rfl rfl rfl⟩

/-- C9 counterexample: the two copies of `_extract_xy` are not equivalent —
on `{"x": ["0.1", "0.2"]}` the gui_main copy raises (its fallback
`float(x)` receives a list) while the gui_mission_control copy, which skips
the numeric-element check on the `x` list, succeeds via `float("0.1")`. -/
theorem extract_copies_differ_counterexample :
    extract_xy_main strPairOut = none ∧
    (extract_xy_mc strPairOut).isSome = true :=
  ⟨by decide, by decide⟩

/-- C9 amended: the two copies of `_extract_xy` agree on every mapping whose
resolved `x` and `y` values, when they are two- or four-element lists, hold
only numeric elements (the numeric-element guard being the only source
difference between the copies). -/
theorem extract_copies_equiv_amended (out : ModelOut)
    (hx : xyListNumeric ((out.xf).getD (PyVal.num (1 / 2))) = true)
    (hy : xyListNumeric ((out.yf).getD (PyVal.num (1 / 2))) = true) :
    extract_xy_main out = extract_xy_mc out := by
  have ex := xyShape_agree ((out.xf).getD (PyVal.num (1 / 2))) hx
  have ey := xyShape_agree ((out.yf).getD (PyVal.num (1 / 2))) hy
  simp only [extract_xy_main, extract_xy_mc, ex, ey]
  cases hps : posShapes ((out.positionf).getD PyVal.pynone) with
  | some r => rfl
  | none =>
      cases hmx : xyShapeMain ((out.xf).getD (PyVal.num (1 / 2))) with
      | some p => rfl
      | none =>
          cases hmy : xyShapeMain ((out.yf).getD (PyVal.num (1 / 2))) with
          | some p => rfl
          | none => rfl

/-- C9 witness for the amended statement: both copies agree on a CLICK
mapping with numeric scalar fields. -/
theorem extract_copies_equiv_amended_witness :
    extract_xy_main clickBad = extract_xy_mc clickBad :=
  extract_copies_equiv_amended clickBad (by decide) (by decide)

/-- C6: with a positive draw rectangle, `_pos_to_norm` returns none exactly
when no frame is set or the display pixel falls outside
`[dx, dx+dw) × [dy, dy+dh)`, and otherwise returns
`((px - dx) / dw, (py - dy) / dh)`. -/
theorem pos_to_norm_cases (dx dy dw dh x y : ℤ)
    (hw : 0 < dw) (hh : 0 < dh) :
    pos_to_norm false (some (dx, dy, dw, dh)) x y = none ∧
    pos_to_norm true none x y = none ∧
    ((x < dx ∨ y < dy ∨ dx + dw ≤ x ∨ dy + dh ≤ y) →
      pos_to_norm true (some (dx, dy, dw, dh)) x y = none) ∧
    (dx ≤ x → dy ≤ y → x < dx + dw → y < dy + dh →
      pos_to_norm true (some (dx, dy, dw, dh)) x y =
        some (((x - dx : ℤ) : ℚ) / ((dw : ℤ) : ℚ),
              ((y - dy : ℤ) : ℚ) / ((dh : ℤ) : ℚ))) := by
  refine ⟨rfl, rfl, fun hout => ?_, fun h1 h2 h3 h4 => ?_⟩
  · have hc1 : ¬(dw ≤ 0 ∨ dh ≤ 0) := by omega
    simp [pos_to_norm, hc1, hout]
  · have hc1 : ¬(dw ≤ 0 ∨ dh ≤ 0) := by omega
    have hc2 : ¬(x < dx ∨ y < dy ∨ dx + dw ≤ x ∨ dy + dh ≤ y) := by omega
    simp [pos_to_norm, hc1, hc2]

/-- C6 witness: the cases evaluated on the rectangle (0, 0, 2, 2). -/
theorem pos_to_norm_cases_witness :
    pos_to_norm false (some (0, 0, 2, 2)) 1 1 = none ∧
    pos_to_norm true none 1 1 = none ∧
    pos_to_norm true (some (0, 0, 2, 2)) 5 1 = none ∧
    pos_to_norm true (some (0, 0, 2, 2)) 1 1 =
      some ((((1 : ℤ) - 0 : ℤ) : ℚ) / (((2 : ℤ) : ℤ) : ℚ),
            (((1 : ℤ) - 0 : ℤ) : ℚ) / (((2 : ℤ) : ℤ) : ℚ)) :=
  ⟨(pos_to_norm_cases 0 0 2 2 1 1 (by decide) (by decide)).1,
   (pos_to_norm_cases 0 0 2 2 1 1 (by decide) (by decide)).2.1,
   (pos_to_norm_cases 0 0 2 2 5 1 (by decide) (by decide)).2.2.1
     (by decide),
   (pos_to_norm_cases 0 0 2 2 1 1 (by decide) (by decide)).2.2.2
     (by decide) (by decide) (by decide) (by decide)⟩

/-- C3: the per-step retry is scoped solely to invalid pointer coordinates:
a non-pointer, non-terminal action is accepted on the first response with no
history change and no re-query; an invalid CLICK/DOUBLE_CLICK/RIGHT_CLICK
coordinate appends exactly one `INVALID_COORDS` entry to history and
re-queries the model; and the query loop consumes at most `retry + 1`
scripted responses when entered with `retry + 1` remaining attempts. -/
theorem retry_scoped_to_invalid_coords :
    (∀ (n : ℕ) (o : ModelOut) (rest : List ModelOut) (h : List HistEntry),
      isPointerKind (actionKind o) = false → actionKind o ≠ "BITTI" →
      attemptLoop (n + 1) (o :: rest) h = (.accepted o, rest, h)) ∧
    (∀ (n : ℕ) (o : ModelOut) (rest : List ModelOut) (h : List HistEntry)
        (x y : ℚ),
      isPointerKind (actionKind o) = true →
      extract_xy_main o = some (x, y) →
      (validate_xy x y).1 = false →
      attemptLoop (n + 1) (o :: rest) h
        = attemptLoop n rest (h ++ [HistEntry.invalidCoords o])) ∧
    (∀ (n : ℕ) (script : List ModelOut) (h : List HistEntry),
      script.length ≤ (attemptLoop n script h).2.1.length + n) := by
  refine ⟨fun n o rest h h1 h2 => ?_, fun n o rest h x y h1 h2 h3 => ?_, ?_⟩
  · have hb : (actionKind o == "BITTI") = false := by
      simp [h2]
    simp [attemptLoop, hb, h1]
  · have hb : (actionKind o == "BITTI") = false := by
      rcases Bool.eq_false_or_eq_true (actionKind o == "BITTI") with hk | hk
      · have he : actionKind o = "BITTI" := by simpa using hk
        rw [he] at h1
        exact absurd h1 (by decide)
      · exact hk
    simp [attemptLoop, hb, h1, h2, h3]
  · intro n
    induction n with
    | zero => intro script h; simp [attemptLoop]
    | succ n ih =>
        intro script h
        cases script with
        | nil => simp [attemptLoop]
        | cons o rest =>
            simp only [attemptLoop]
            split
            · simp
            · split
              · split
                · simp
                · split
                  · simp
                  · have := ih rest (h ++ [HistEntry.invalidCoords o])
                    simp only [List.length_cons]
                    omega
              · simp

/-- C3 witness: a TYPE action accepted first try with untouched history; an
invalid CLICK consuming one attempt and appending one tagged entry; the
consumption bound at three attempts. -/
theorem retry_scoped_to_invalid_coords_witness :
    attemptLoop 3 [typeOut "a"] [] = (.accepted (typeOut "a"), [], []) ∧
    attemptLoop 3 [clickBad] []
      = attemptLoop 2 [] ([] ++ [HistEntry.invalidCoords clickBad]) ∧
    [clickBad, clickBad, clickBad].length
      ≤ (attemptLoop 3 [clickBad, clickBad, clickBad] []).2.1.length + 3 :=
  ⟨retry_scoped_to_invalid_coords.1 2 (typeOut "a") [] [] (by decide)
     (by decide),
   retry_scoped_to_invalid_coords.2.1 2 clickBad [] [] 2 2 (by decide)
     (by decide) (by decide),
   retry_scoped_to_invalid_coords.2.2 3 [clickBad, clickBad, clickBad] []⟩

/-! ## Helper lemmas for the actuation-boundary invariant -/

theorem pos_to_norm_inUnit (f : Bool) (r : Option (ℤ × ℤ × ℤ × ℤ))
    (x y : ℤ) : optInUnit (pos_to_norm f r x y) := by
  cases f with
  | false => exact trivial
  | true =>
    cases r with
    | none => exact trivial
    | some t =>
        obtain ⟨dx, dy, dw, dh⟩ := t
        simp only [pos_to_norm]
        split_ifs with h1 h2
        · exact trivial
        · exact trivial
        · push_neg at h1 h2
          obtain ⟨hw, hh⟩ := h1
          obtain ⟨hx1, hy1, hx2, hy2⟩ := h2
          have cw : (0 : ℚ) < ((dw : ℤ) : ℚ) := by exact_mod_cast hw
          have ch : (0 : ℚ) < ((dh : ℤ) : ℚ) := by exact_mod_cast hh
          refine ⟨?_, ?_, ?_, ?_⟩
          · exact div_nonneg (by exact_mod_cast (by omega : (0 : ℤ) ≤ x - dx))
              cw.le
          · exact (div_le_one cw).mpr
              (by exact_mod_cast (by omega : x - dx ≤ dw))
          · exact div_nonneg (by exact_mod_cast (by omega : (0 : ℤ) ≤ y - dy))
              ch.le
          · exact (div_le_one ch).mpr
              (by exact_mod_cast (by omega : y - dy ≤ dh))

theorem pos_to_norm_some_inUnit (f : Bool) (r : Option (ℤ × ℤ × ℤ × ℤ))
    (x y : ℤ) (nx ny : ℚ) (h : pos_to_norm f r x y = some (nx, ny)) :
    inUnit (nx, ny) := by
  have hu := pos_to_norm_inUnit f r x y
  rw [h] at hu
  simpa [optInUnit] using hu

/-- Case split for `mousePressEvent`: either nothing is emitted and the
state is unchanged, or a mapped press with a recognized button records the
button and issues move-then-down. -/
theorem onPress_cases (s : ViewState) (x y : ℤ) (b : QtButton) :
    onPress s x y b = (s, []) ∨
    (∃ nx ny btn, s.inputEnabled = true ∧
      pos_to_norm s.hasFrame s.rect x y = some (nx, ny) ∧
      btnCode b = some btn ∧
      onPress s x y b = ({ s with pressedBtn := some btn },
        [SbCall.moveNorm nx ny, SbCall.mouseDown btn])) := by
  by_cases he : s.inputEnabled = true
  · cases hm : pos_to_norm s.hasFrame s.rect x y with
    | none => left; simp [onPress, he, hm]
    | some p =>
        obtain ⟨nx, ny⟩ := p
        cases hb : btnCode b with
        | none => left; simp [onPress, he, hm, hb]
        | some btn =>
            right
            exact ⟨nx, ny, btn, he, rfl, rfl, by simp [onPress, he, hm, hb]⟩
  · left; simp [onPress, he]

/-- Case split for `mouseMoveEvent`: either nothing is emitted and the state
is unchanged (input disabled, unmapped position, or inside the 30 ms
debounce window), or the move is forwarded — as a drag carrying the held
button when one is held — and the debounce clock advances to `now`. -/
theorem onMove_cases (s : ViewState) (x y : ℤ) (now : ℚ) :
    onMove s x y now = (s, []) ∨
    (∃ nx ny,
      s.inputEnabled = true ∧
      pos_to_norm s.hasFrame s.rect x y = some (nx, ny) ∧
      s.lastMoveTs + 3 / 100 ≤ now ∧
      ((∃ b, s.pressedBtn = some b ∧
          onMove s x y now
            = ({ s with lastMoveTs := now }, [SbCall.dragNorm nx ny b])) ∨
       (s.pressedBtn = none ∧
          onMove s x y now
            = ({ s with lastMoveTs := now }, [SbCall.moveNorm nx ny])))) := by
  by_cases he : s.inputEnabled = true
  · cases hm : pos_to_norm s.hasFrame s.rect x y with
    | none => left; simp [onMove, he, hm]
    | some p =>
        obtain ⟨nx, ny⟩ := p
        by_cases ht : now - s.lastMoveTs < 3 / 100
        · left; simp [onMove, he, hm, ht]
        · right
          refine ⟨nx, ny, he, rfl, by linarith, ?_⟩
          cases hpb : s.pressedBtn with
          | some b =>
              exact Or.inl ⟨b, rfl, by simp [onMove, he, hm, ht, hpb]⟩
          | none => exact Or.inr ⟨rfl, by simp [onMove, he, hm, ht, hpb]⟩
  · left; simp [onMove, he]

/-- Case split for `mouseReleaseEvent`: either nothing is emitted, or a
held button is released with exactly one button-up call. -/
theorem onRelease_cases (s : ViewState) :
    onRelease s = (s, []) ∨
    (∃ b, s.inputEnabled = true ∧ s.pressedBtn = some b ∧
      onRelease s = ({ s with pressedBtn := none }, [SbCall.mouseUp b])) := by
  by_cases he : s.inputEnabled = true
  · cases hpb : s.pressedBtn with
    | none => left; simp [onRelease, he, hpb]
    | some b => right; exact ⟨b, he, rfl, by simp [onRelease, he, hpb]⟩
  · left; simp [onRelease, he]

theorem viewStep_inUnit (s : ViewState) (e : MouseEv) :
    ∀ c ∈ (viewStep s e).2, callInUnit c := by
  cases e with
  | press x y b =>
      rcases onPress_cases s x y b with h | ⟨nx, ny, btn, _, hm, _, h⟩
      · intro c hc
        rw [viewStep, h] at hc
        simp at hc
      · intro c hc
        rw [viewStep, h] at hc
        simp at hc
        rcases hc with rfl | rfl
        · simpa [callInUnit] using pos_to_norm_some_inUnit _ _ _ _ _ _ hm
        · simp [callInUnit]
  | move x y now =>
      rcases onMove_cases s x y now with h |
        ⟨nx, ny, _, hm, _, ⟨b2, _, h⟩ | ⟨_, h⟩⟩
      · intro c hc
        rw [viewStep, h] at hc
        simp at hc
      · intro c hc
        rw [viewStep, h] at hc
        simp at hc
        subst hc
        simpa [callInUnit] using pos_to_norm_some_inUnit _ _ _ _ _ _ hm
      · intro c hc
        rw [viewStep, h] at hc
        simp at hc
        subst hc
        simpa [callInUnit] using pos_to_norm_some_inUnit _ _ _ _ _ _ hm
  | release =>
      rcases onRelease_cases s with h | ⟨b2, _, _, h⟩
      · intro c hc
        rw [viewStep, h] at hc
        simp at hc
      · intro c hc
        rw [viewStep, h] at hc
        simp at hc
        subst hc
        simp [callInUnit]

theorem runEvents_inUnit (evs : List MouseEv) :
    ∀ s : ViewState, ∀ c ∈ (runEvents s evs).2, callInUnit c := by
  induction evs with
  | nil => intro s c hc; simp [runEvents] at hc
  | cons e es ih =>
      intro s c hc
      simp only [runEvents] at hc
      rcases List.mem_append.mp hc with hcl | hcr
      · exact viewStep_inUnit s e c hcl
      · exact ih (viewStep s e).1 c hcr

theorem validate_xy_true (x y : ℚ) (hv : (validate_xy x y).1 = true) :
    0 ≤ x ∧ x ≤ 1 ∧ 0 ≤ y ∧ y ≤ 1 := by
  unfold validate_xy at hv
  split_ifs at hv with hc
  exact hc

theorem attemptLoop_accepted_pointer (n : ℕ) :
    ∀ (script : List ModelOut) (h : List HistEntry) (o : ModelOut)
      (rest : List ModelOut) (h' : List HistEntry),
      attemptLoop n script h = (.accepted o, rest, h') →
      pointerCoordsValid o := by
  induction n with
  | zero =>
      intro script h o rest h' heq
      simp [attemptLoop] at heq
  | succ n ih =>
      intro script h o rest h' heq
      cases script with
      | nil => simp [attemptLoop] at heq
      | cons o0 rest0 =>
          by_cases hb : (actionKind o0 == "BITTI") = true
          · simp [attemptLoop, hb] at heq
          · have hbf : (actionKind o0 == "BITTI") = false := by simpa using hb
            by_cases hptr : isPointerKind (actionKind o0) = true
            · rcases hext : extract_xy_main o0 with _ | ⟨x0, y0⟩
              · simp [attemptLoop, hbf, hptr, hext] at heq
              · by_cases hval : (validate_xy x0 y0).1 = true
                · have ho :
                      { o0 with xf := some (.num x0), yf := some (.num y0) }
                        = o := by
                    have h2 := heq
                    simp [attemptLoop, hbf, hptr, hext, hval,
                      Prod.mk.injEq] at h2
                    exact h2.1
                  subst ho
                  intro _
                  obtain ⟨c1, c2, c3, c4⟩ := validate_xy_true x0 y0 hval
                  exact ⟨x0, y0, rfl, rfl, c1, c2, c3, c4⟩
                · have hvf : (validate_xy x0 y0).1 = false := by
                    simpa using hval
                  exact ih rest0 (h ++ [HistEntry.invalidCoords o0]) o rest h'
                    (by simpa [attemptLoop, hbf, hptr, hext, hvf] using heq)
            · have hpf : isPointerKind (actionKind o0) = false := by
                simpa using hptr
              have ho : o0 = o ∧ rest0 = rest ∧ h = h' := by
                simpa [attemptLoop, hbf, hpf, Prod.mk.injEq] using heq
              obtain ⟨rfl, -, -⟩ := ho
              intro hcon
              rw [hcon] at hpf
              exact absurd hpf (by decide)

theorem runLoop_trace_pointerValid (cfg : LoopCfg) (stop : Bool) (fuel : ℕ) :
    ∀ (step : ℕ) (script : List ModelOut) (history : List HistEntry)
      (trace : List ModelOut),
      (∀ o ∈ trace, pointerCoordsValid o) →
      ∀ o ∈ (runLoop cfg stop fuel step script history trace).2,
        pointerCoordsValid o := by
  induction fuel with
  | zero =>
      intro step script history trace ht
      simpa [runLoop] using ht
  | succ fuel ih =>
      intro step script history trace ht
      by_cases hs : stop = true
      · simpa [runLoop, hs] using ht
      · rcases hAL : attemptLoop (cfg.modelRetry + 1) script history with
          ⟨res, rest, history'⟩
        cases res with
        | doneBitti => simpa [runLoop, hs, hAL] using ht
        | exhausted => simpa [runLoop, hs, hAL] using ht
        | raised => simpa [runLoop, hs, hAL] using ht
        | modelGone => simpa [runLoop, hs, hAL] using ht
        | accepted o =>
            have ho := attemptLoop_accepted_pointer (cfg.modelRetry + 1)
              script history o rest history' hAL
            have happ : ∀ o' ∈ trace ++ [o], pointerCoordsValid o' := by
              intro o' ho'
              rcases List.mem_append.mp ho' with hl | hr
              · exact ht o' hl
              · rw [List.mem_singleton.mp hr]; exact ho
            by_cases hg : (should_stop_on_repeat history' o).1 = true
            · simpa [runLoop, hs, hAL, hg] using ht
            · by_cases hm2 : cfg.maxSteps < step + 1
              · simpa [runLoop, hs, hAL, hg, hm2] using happ
              · intro o' ho'
                have hred :
                    (runLoop cfg stop (fuel + 1) step script history trace).2
                      = (runLoop cfg stop fuel (step + 1) rest
                          (history' ++ [HistEntry.acted o])
                          (trace ++ [o])).2 := by
                  simp [runLoop, hs, hAL, hg, hm2]
                rw [hred] at ho'
                exact ih (step + 1) rest (history' ++ [HistEntry.acted o])
                  (trace ++ [o]) happ o' ho'

/-- C5: every normalized point handed to the environment's actuation
interface lies in [0,1]×[0,1] — the viewport mapper only produces points in
the unit square, every pointer/drag call the input translator emits carries
such a point, and every pointer action executed by the loop carries numeric
coordinates in the unit square, accepted by the validator (the validator is
the spec-modelled `validate_xy`, whose source `src/guards.py` is not in the
sources). -/
theorem actuation_boundary_invariant :
    (∀ (f : Bool) (r : Option (ℤ × ℤ × ℤ × ℤ)) (x y : ℤ),
      optInUnit (pos_to_norm f r x y)) ∧
    (∀ (s : ViewState) (evs : List MouseEv),
      ((runEvents s evs).2).Forall callInUnit) ∧
    (∀ (cfg : LoopCfg) (script : List ModelOut),
      ((run_single_command cfg script).2).Forall pointerCoordsValid) :=
  ⟨pos_to_norm_inUnit,
   fun s evs => List.forall_iff_forall_mem.mpr (runEvents_inUnit evs s),
   fun cfg script =>
     List.forall_iff_forall_mem.mpr
       (runLoop_trace_pointerValid cfg false (script.length + 1) 1 script []
         [] (by intro o ho; simp at ho))⟩

/-! ## Helper lemmas for the input-translation ordering -/

theorem runEvents_append (l1 l2 : List MouseEv) :
    ∀ s : ViewState,
      runEvents s (l1 ++ l2)
        = ((runEvents (runEvents s l1).1 l2).1,
           (runEvents s l1).2 ++ (runEvents (runEvents s l1).1 l2).2) := by
  induction l1 with
  | nil => intro s; simp [runEvents]
  | cons e es ih =>
      intro s
      simp [runEvents, ih (viewStep s e).1, List.append_assoc]

/-- Over a run of move events while a button is held with input enabled,
the state keeps the button, the enablement, the frame and rectangle; every
emitted call is a drag with that button; and at most one call is emitted
per move. -/
theorem runMoves_shape (moves : List (ℤ × ℤ × ℚ)) :
    ∀ (s : ViewState) (b : ℕ),
      s.inputEnabled = true → s.pressedBtn = some b →
      ((runEvents s (movesToEvs moves)).1.inputEnabled = true ∧
       (runEvents s (movesToEvs moves)).1.pressedBtn = some b) ∧
      (∀ c ∈ (runEvents s (movesToEvs moves)).2,
        ∃ px py, c = SbCall.dragNorm px py b) ∧
      (runEvents s (movesToEvs moves)).2.length ≤ moves.length := by
  induction moves with
  | nil =>
      intro s b he hb
      exact ⟨⟨he, hb⟩, by intro c hc; simp [movesToEvs, runEvents] at hc,
        by simp [movesToEvs, runEvents]⟩
  | cons m ms ih =>
      intro s b he hb
      have hcons : movesToEvs (m :: ms)
          = MouseEv.move m.1 m.2.1 m.2.2 :: movesToEvs ms := by
        simp [movesToEvs]
      rcases onMove_cases s m.1 m.2.1 m.2.2 with h |
        ⟨nx, ny, _, _, _, ⟨b2, hb2, h⟩ | ⟨hb2, h⟩⟩
      · rw [hcons]
        simp only [runEvents, viewStep, h]
        have := ih s b he hb
        refine ⟨this.1, ?_, ?_⟩
        · intro c hc
          simp only [List.nil_append] at hc
          exact this.2.1 c hc
        · simp only [List.nil_append, List.length_cons]
          exact le_trans this.2.2 (Nat.le_succ _)
      · -- forwarded as a drag with the held button
        have hbb : b2 = b := by
          rw [hb2] at hb
          exact Option.some.inj hb
        rw [hbb] at h
        rw [hcons]
        simp only [runEvents, viewStep, h]
        have hih := ih { s with lastMoveTs := m.2.2 } b he hb
        refine ⟨hih.1, ?_, ?_⟩
        · intro c hc
          simp only [List.cons_append, List.nil_append, List.mem_cons] at hc
          rcases hc with rfl | hc
          · exact ⟨nx, ny, rfl⟩
          · exact hih.2.1 c hc
        · simp only [List.cons_append, List.nil_append, List.length_cons]
          exact Nat.succ_le_succ hih.2.2
      · -- pressedBtn = none contradicts the hypothesis
        rw [hb2] at hb
        exact absurd hb (by simp)

/-- While every move in the run happens within 30 ms of a reference time
that the debounce clock has already reached, nothing is forwarded and the
state is unchanged. -/
theorem runMoves_none_within (moves : List (ℤ × ℤ × ℚ)) :
    ∀ (s : ViewState) (T : ℚ), s.inputEnabled = true →
      T ≤ s.lastMoveTs → (∀ m ∈ moves, m.2.2 < T + 3 / 100) →
      runEvents s (movesToEvs moves) = (s, []) := by
  induction moves with
  | nil => intro s T he hT hlt; rfl
  | cons m ms ih =>
      intro s T he hT hlt
      have hstep : onMove s m.1 m.2.1 m.2.2 = (s, []) := by
        rcases onMove_cases s m.1 m.2.1 m.2.2 with h |
          ⟨nx, ny, _, _, hts, _⟩
        · exact h
        · exfalso
          have h1 := hlt m (List.mem_cons_self m ms)
          linarith
      have hcons : movesToEvs (m :: ms)
          = MouseEv.move m.1 m.2.1 m.2.2 :: movesToEvs ms := by
        simp [movesToEvs]
      rw [hcons]
      simp only [runEvents, viewStep, hstep]
      rw [ih s T he hT (fun m' hm' => hlt m' (List.mem_cons_of_mem m hm'))]
      simp

/-- The debounce property: all moves within one 30 ms window forward at
most one call. -/
theorem runMoves_atMostOne (moves : List (ℤ × ℤ × ℚ)) :
    ∀ (s : ViewState) (T : ℚ), s.inputEnabled = true →
      (∀ m ∈ moves, T ≤ m.2.2 ∧ m.2.2 < T + 3 / 100) →
      (runEvents s (movesToEvs moves)).2.length ≤ 1 := by
  induction moves with
  | nil => intro s T he hw; simp [movesToEvs, runEvents]
  | cons m ms ih =>
      intro s T he hw
      have hcons : movesToEvs (m :: ms)
          = MouseEv.move m.1 m.2.1 m.2.2 :: movesToEvs ms := by
        simp [movesToEvs]
      rcases onMove_cases s m.1 m.2.1 m.2.2 with h |
        ⟨nx, ny, _, _, hts, hforms⟩
      · rw [hcons]
        simp only [runEvents, viewStep, h, List.nil_append]
        exact ih s T he (fun m' hm' => hw m' (List.mem_cons_of_mem m hm'))
      · have hrest :
            runEvents { s with lastMoveTs := m.2.2 } (movesToEvs ms)
              = ({ s with lastMoveTs := m.2.2 }, []) :=
          runMoves_none_within ms { s with lastMoveTs := m.2.2 } T he
            (hw m (List.mem_cons_self m ms)).1
            (fun m' hm' => (hw m' (List.mem_cons_of_mem m hm')).2)
        rcases hforms with ⟨b2, _, h⟩ | ⟨_, h⟩ <;>
          · rw [hcons]
            simp only [runEvents, viewStep, h, hrest]
            simp

/-- C7: for a pointer-down at a mapped position with a recognized button,
followed by any number of moves and a pointer-up, the translator issues
exactly one move-then-button-down pair at press, then only drag calls
carrying the held button for the moves (at most one per move, and at most
one within any 30 ms wall-clock window), and exactly one button-up for the
same button at release, in that order. -/
theorem input_translation_ordering (s : ViewState) (x y : ℤ) (b : QtButton)
    (btn : ℕ) (nx ny : ℚ) (moves : List (ℤ × ℤ × ℚ))
    (he : s.inputEnabled = true) (_hp0 : s.pressedBtn = none)
    (hmap : pos_to_norm s.hasFrame s.rect x y = some (nx, ny))
    (hbtn : btnCode b = some btn) :
    ∃ drags : List SbCall,
      (runEvents s
          (MouseEv.press x y b :: (movesToEvs moves ++ [MouseEv.release]))).2
        = SbCall.moveNorm nx ny :: SbCall.mouseDown btn ::
            (drags ++ [SbCall.mouseUp btn]) ∧
      (∀ c ∈ drags, ∃ px py, c = SbCall.dragNorm px py btn) ∧
      drags.length ≤ moves.length ∧
      (∀ T : ℚ, (∀ m ∈ moves, T ≤ m.2.2 ∧ m.2.2 < T + 3 / 100) →
        drags.length ≤ 1) := by
  have hpress : viewStep s (.press x y b)
      = ({ s with pressedBtn := some btn },
         [SbCall.moveNorm nx ny, SbCall.mouseDown btn]) := by
    simp [viewStep, onPress, he, hmap, hbtn]
  have hshape := runMoves_shape moves { s with pressedBtn := some btn } btn
    he rfl
  have hrel : onRelease
      (runEvents { s with pressedBtn := some btn } (movesToEvs moves)).1
      = ({ (runEvents { s with pressedBtn := some btn }
              (movesToEvs moves)).1 with pressedBtn := none },
         [SbCall.mouseUp btn]) := by
    simp [onRelease, hshape.1.1, hshape.1.2]
  refine ⟨(runEvents { s with pressedBtn := some btn } (movesToEvs moves)).2,
    ?_, hshape.2.1, hshape.2.2,
    fun T hT =>
      runMoves_atMostOne moves { s with pressedBtn := some btn } T he hT⟩
  simp only [runEvents, hpress]
  rw [runEvents_append]
  simp only [runEvents, viewStep, hrel]
  simp

/-- C7 witness: a press-release pair with no moves on the idle view state,
producing exactly move, down, up. -/
theorem input_translation_ordering_witness :
    ∃ drags : List SbCall,
      (runEvents vs0 (MouseEv.press 1 1 QtButton.left
          :: (movesToEvs [] ++ [MouseEv.release]))).2
        = SbCall.moveNorm (((((1 : ℤ) - 0 : ℤ)) : ℚ) / (((2 : ℤ)) : ℚ))
            (((((1 : ℤ) - 0 : ℤ)) : ℚ) / (((2 : ℤ)) : ℚ))
          :: SbCall.mouseDown 1 :: (drags ++ [SbCall.mouseUp 1]) ∧
      (∀ c ∈ drags, ∃ px py, c = SbCall.dragNorm px py 1) ∧
      drags.length ≤ ([] : List (ℤ × ℤ × ℚ)).length ∧
      (∀ T : ℚ, (∀ m ∈ ([] : List (ℤ × ℤ × ℚ)),
          T ≤ m.2.2 ∧ m.2.2 < T + 3 / 100) →
        drags.length ≤ 1) :=
  input_translation_ordering vs0 1 1 QtButton.left 1
    (((((1 : ℤ) - 0 : ℤ)) : ℚ) / (((2 : ℤ)) : ℚ))
    (((((1 : ℤ) - 0 : ℤ)) : ℚ) / (((2 : ℤ)) : ℚ)) [] rfl rfl rfl rfl

end CuaOS
